import Mathlib

/-!
# spin-wheel: admin dashboard and cloud functions

A shallow embedding of the repository's server functions
(`functions/index.js`), of the dashboard feed handling (`src/js/admin.js`)
and of the chart tooltip percentage (`src/js/utils/chartUtils.js`), with the
properties of the specification stated over it.

External collaborators (the Firestore client, the identity service) are not
part of the repository.  They are modelled at their interface: every call the
code makes is recorded in a log, and the outcome of a call that can fail is
a parameter (for the store client, whether `doc` takes a path and whether the
`n`-th commit resolves; for the identity service, what each call does for a
given uid).
-/

namespace SpinWheel

/-! ## JavaScript values -/

/-- The JavaScript values the code inspects.  `num` is an integer-valued
number in the safe-integer range (where `String` prints plain decimal digits);
`obj` is any object or array, identified by a reference and carrying the text
its `String(...)` conversion gives. -/
inductive JSVal where
  | undefined
  | null
  | bool (b : Bool)
  | num (n : Int)
  | nan
  | str (s : String)
  | obj (ref : Nat) (text : String)
  deriving DecidableEq, Repr

namespace JSVal

/-- The conversion `Boolean(v)`: the falsy values are `undefined`, `null`, `false`, `0`,
`NaN` and the empty string. -/
def truthy : JSVal → Bool
  | undefined => false
  | null => false
  | bool b => b
  | num n => n != 0
  | nan => false
  | str s => s != ""
  | obj _ _ => true

/-- The conversion `String(v)`. -/
def toStr : JSVal → String
  | undefined => "undefined"
  | null => "null"
  | bool b => if b then "true" else "false"
  | num n => toString n
  | nan => "NaN"
  | str s => s
  | obj _ t => t

/-- The operator `a || b`. -/
def or (a b : JSVal) : JSVal := if a.truthy then a else b

/-- The operator `a ?? b`. -/
def nullish (a b : JSVal) : JSVal :=
  match a with
  | undefined => b
  | null => b
  | v => v

/-- The operator `a === b`: no coercion, `NaN` differs from itself, objects are compared
by reference. -/
def strictEq : JSVal → JSVal → Bool
  | undefined, undefined => true
  | null, null => true
  | bool a, bool b => a == b
  | num a, num b => a == b
  | str a, str b => a == b
  | obj r _, obj s _ => r == s
  | _, _ => false

end JSVal

/-! ## `adminDeleteSpins` (functions/index.js, lines 9-34) -/

/-- An entry of the `ids` array: a value of the kinds above, or an object
whose conversion to a string throws a `TypeError` (such as `{ toString: 0 }`),
identified by a reference. -/
inductive IdEntry where
  | value (v : JSVal)
  | unprintable (ref : Nat)
  deriving DecidableEq, Repr

/-- The conversion `Boolean(id)`; every object is truthy. -/
def IdEntry.truthy : IdEntry → Bool
  | IdEntry.value v => v.truthy
  | IdEntry.unprintable _ => true

/-- The conversion `String(id)`, `none` when it throws. -/
def IdEntry.toStr : IdEntry → Option String
  | IdEntry.value v => some v.toStr
  | IdEntry.unprintable _ => none

/-- What the function does to the Firestore client, in program order:
`db.batch()`, `batch.delete(ref)` with the path of the document `ref` names,
and `batch.commit()` together with whether the commit resolved. -/
inductive StoreEvent where
  | batch
  | delete (docId : String)
  | commit (ok : Bool)
  deriving DecidableEq, Repr

/-- The decoded ID token: `context.auth.token`, with its `admin` custom
claim (`undefined` when the claim is absent). -/
structure DecodedToken where
  admin : JSVal
  deriving DecidableEq, Repr

/-- The field `context.auth`. -/
structure AuthData where
  token : Option DecodedToken
  deriving DecidableEq, Repr

/-- The callable context; `auth` is `none` when the caller presented no
verified identity. -/
structure CallableContext where
  auth : Option AuthData
  deriving DecidableEq, Repr

/-- The callable payload: `ids` is `some xs` when `data.ids` is an array and
`none` for anything else (a missing field included). -/
structure CallData where
  ids : Option (List IdEntry)
  deriving DecidableEq, Repr

/-- How a call ends: the returned `{ deleted }`, a thrown `HttpsError` with
its code and message, or an exception leaving the function, which nothing
catches, so that no value is returned: the rejection of `batch.commit()`, the
`TypeError` of `String(id)`, or the error `doc(...)` throws for a path that
names no document. -/
inductive CallResult where
  | returned (deleted : Nat)
  | httpsError (code : String) (message : String)
  | commitRejected
  | conversionThrew
  | docThrew
  deriving DecidableEq, Repr

/-- A finished call: its result and everything it did to the store. -/
structure Run where
  result : CallResult
  trace : List StoreEvent
  deriving DecidableEq, Repr

/-- The constant `chunkSize`. -/
def chunkSize : Nat := 400

/-- The value of `ids.slice(i, i + chunkSize)`. -/
def slice (ids : List IdEntry) (i : Nat) : List IdEntry :=
  (ids.drop i).take chunkSize

/-- Line 28, `chunk.forEach((id) => batch.delete(db.collection('spins').doc(String(id))))`,
entry by entry: `String(id)` is evaluated, then `doc` (which `docOk` says to
return a reference or to throw), then the delete is added to the batch.  The
first exception ends the iteration; it is returned with the log so far. -/
def addDeletes (docOk : String → Bool) :
    List IdEntry → List StoreEvent → Option CallResult × List StoreEvent
  | [], trace => (none, trace)
  | id :: rest, trace =>
    match id.toStr with
    | none => (some CallResult.conversionThrew, trace)
    | some path =>
      if docOk path then addDeletes docOk rest (trace ++ [StoreEvent.delete path])
      else (some CallResult.docThrew, trace)

/-- The `for` loop of lines 25-31.  `docOk path` tells whether
`db.collection('spins').doc(path)` returns a reference, `commitOk n` whether
the `n`-th commit issued to the store resolves; `attempt` counts the commits
issued so far, `deleted` is the local of that name and `trace` the log so
far. -/
def deleteLoop (docOk : String → Bool) (commitOk : Nat → Bool) (ids : List IdEntry)
    (i deleted attempt : Nat) (trace : List StoreEvent) : Run :=
  if i < ids.length then
    let chunk := slice ids i
    match addDeletes docOk chunk (trace ++ [StoreEvent.batch]) with
    | (some thrown, trace) => { result := thrown, trace := trace }
    | (none, trace) =>
      if commitOk attempt then
        deleteLoop docOk commitOk ids (i + chunkSize) (deleted + chunk.length) (attempt + 1)
          (trace ++ [StoreEvent.commit true])
      else
        { result := CallResult.commitRejected, trace := trace ++ [StoreEvent.commit false] }
  else
    { result := CallResult.returned deleted, trace := trace }
termination_by ids.length - i
decreasing_by simp [chunkSize]; omega

/-- The entries of `data.ids` when it is an array, no entries otherwise. -/
def payloadIds (data : Option CallData) : List IdEntry :=
  match data with
  | none => []
  | some d =>
    match d.ids with
    | none => []
    | some xs => xs

/-- The expression `Array.isArray(data?.ids) ? data.ids.filter(Boolean) : []`. -/
def filteredIds (data : Option CallData) : List IdEntry :=
  match data with
  | none => []
  | some d =>
    match d.ids with
    | none => []
    | some xs => xs.filter IdEntry.truthy

/-- The callable `adminDeleteSpins`. -/
def adminDeleteSpins (docOk : String → Bool) (commitOk : Nat → Bool)
    (data : Option CallData) (context : CallableContext) : Run :=
  match context.auth with
  | none =>
    { result := CallResult.httpsError "unauthenticated" "Authentication required.", trace := [] }
  | some auth =>
    if !(match auth.token with
          | none => JSVal.undefined
          | some t => t.admin).truthy then
      { result := CallResult.httpsError "permission-denied" "Admin privileges required.",
        trace := [] }
    else
      let ids := filteredIds data
      if ids.length = 0 then
        { result := CallResult.returned 0, trace := [] }
      else
        deleteLoop docOk commitOk ids 0 0 0 []

/-! ### Reading a store log -/

/-- A batch as the store saw it: the document ids of its deletes in insertion
order, and whether its commit resolved. -/
structure BatchRecord where
  ops : List String
  committed : Bool
  deriving DecidableEq, Repr

/-- The state of a replay of the log: the batches already committed or
failed, and the deletes of the batch currently being filled. -/
structure Replay where
  done : List BatchRecord
  cur : List String
  deriving DecidableEq, Repr

/-- One event of the replay. -/
def Replay.step (s : Replay) : StoreEvent → Replay
  | StoreEvent.batch => { s with cur := [] }
  | StoreEvent.delete d => { s with cur := s.cur ++ [d] }
  | StoreEvent.commit ok => { done := s.done ++ [{ ops := s.cur, committed := ok }], cur := [] }

/-- The batches a log holds, in the order of their commits. -/
def batchesOf (trace : List StoreEvent) : List BatchRecord :=
  (trace.foldl Replay.step { done := [], cur := [] }).done

/-- The batches whose commit resolved. -/
def committedBatches (trace : List StoreEvent) : List (List String) :=
  ((batchesOf trace).filter (fun b => b.committed)).map (fun b => b.ops)

/-- The document ids of all the deletes a log holds, in program order. -/
def deletesOf (trace : List StoreEvent) : List String :=
  trace.filterMap (fun e => match e with
    | StoreEvent.delete d => some d
    | _ => none)

/-- The number of entries of the payload that are not falsy (for strings: not
empty), whatever the code does with them. -/
def submittedCount (data : Option CallData) : Nat :=
  (payloadIds data).countP IdEntry.truthy

/-- A context whose caller is authenticated and holds the admin claim. -/
def isAdmin (context : CallableContext) : Bool :=
  match context.auth with
  | none => false
  | some auth =>
    match auth.token with
    | none => false
    | some t => t.admin.truthy

/-- An entry line 28 goes through without an exception: its conversion to a
string succeeds and `doc` takes the result. -/
def accepted (docOk : String → Bool) (id : IdEntry) : Bool :=
  match id.toStr with
  | none => false
  | some path => docOk path

/-- The strings of the entries that convert to one. -/
def docIds (ids : List IdEntry) : List String := ids.filterMap IdEntry.toStr

/-- The log of one pass through the loop body entered with index `i`, when
no entry of the chunk throws. -/
def iterationTrace (ids : List IdEntry) (i : Nat) (ok : Bool) : List StoreEvent :=
  [StoreEvent.batch] ++ (docIds (slice ids i)).map StoreEvent.delete ++ [StoreEvent.commit ok]

/-! ## `setAdminClaimHttp` (functions/index.js, lines 39-66) -/

/-- The parsed request body, as far as the function reads it. -/
structure RequestBody where
  secret : JSVal
  uid : JSVal
  deriving DecidableEq, Repr

/-- The HTTP request: `querySecret` is `req.query.secret`, `queryUid` is
`req.query.uid`, `headerSecret` is `req.headers['x-admin-setup-secret']`
(each `undefined` when absent); `body` is `none` when `req.body` is
`undefined` or `null`. -/
structure Request where
  method : String
  querySecret : JSVal
  queryUid : JSVal
  body : Option RequestBody
  headerSecret : JSVal
  deriving DecidableEq, Repr

/-- Where the expected secret comes from: `process.env.ADMIN_SETUP_SECRET`
and `functions.config()?.admin?.setup_secret`. -/
structure ServerConfig where
  envSecret : JSVal
  configSecret : JSVal
  deriving DecidableEq, Repr

/-- A value thrown by the identity service: its `message` property and the
text `String(e)` gives. -/
structure JSError where
  message : JSVal
  text : String
  deriving DecidableEq, Repr

/-- The identity service: for each of the two calls, `none` when it resolves
and the thrown value when it rejects. -/
structure AuthService where
  setCustomUserClaims : String → Option JSError
  revokeRefreshTokens : String → Option JSError

/-- A call made to the identity service and whether it resolved.  The claims
object passed to `setCustomUserClaims` is always `{ admin: true }`. -/
inductive AuthEvent where
  | setCustomUserClaims (uid : String) (ok : Bool)
  | revokeRefreshTokens (uid : String) (ok : Bool)
  deriving DecidableEq, Repr

/-- What is sent back: `send(text)`, or `json` of an object with the fields
`ok`, `error` and `uid` (the last two when present). -/
inductive ResponseBody where
  | text (s : String)
  | json (ok : Bool) (error : Option JSVal) (uid : Option String)
  deriving DecidableEq, Repr

/-- The HTTP response. -/
structure Response where
  status : Nat
  headers : List (String × String)
  body : ResponseBody
  deriving DecidableEq, Repr

/-- A handled request: the response and the calls made to the identity
service, in order. -/
structure HttpRun where
  response : Response
  authLog : List AuthEvent
  deriving DecidableEq, Repr

/-- The three headers set at lines 41-43. -/
def corsHeaders : List (String × String) :=
  [("Access-Control-Allow-Origin", "*"),
   ("Access-Control-Allow-Methods", "GET,POST,OPTIONS"),
   ("Access-Control-Allow-Headers", "Content-Type,Authorization")]

/-- The characters `String.prototype.trim` removes: white space and line
terminators. -/
def isTrimChar (c : Char) : Bool :=
  let n := c.toNat
  n == 9 || n == 10 || n == 11 || n == 12 || n == 13 || n == 32 || n == 160
    || n == 0x1680 || (0x2000 ≤ n && n ≤ 0x200A) || n == 0x2028 || n == 0x2029
    || n == 0x202F || n == 0x205F || n == 0x3000 || n == 0xFEFF

/-- The method `s.trim()`. -/
def jsTrim (s : String) : String :=
  String.mk ((s.data.dropWhile isTrimChar).reverse.dropWhile isTrimChar).reverse

/-- The expression `req.body?.secret`. -/
def bodySecret (req : Request) : JSVal :=
  match req.body with
  | none => JSVal.undefined
  | some b => b.secret

/-- The expression `req.body?.uid`. -/
def bodyUid (req : Request) : JSVal :=
  match req.body with
  | none => JSVal.undefined
  | some b => b.uid

/-- The constant `provided` of line 46. -/
def providedSecret (req : Request) : JSVal :=
  (((req.querySecret.or (bodySecret req)).or req.headerSecret)).nullish (JSVal.str "")

/-- The constant `expected` of line 47. -/
def expectedSecret (cfg : ServerConfig) : JSVal :=
  cfg.envSecret.or cfg.configSecret

/-- The constant `uid` of line 55. -/
def requestUid (req : Request) : String :=
  jsTrim ((req.queryUid.or (bodyUid req)).or (JSVal.str "")).toStr

/-- The expression `e?.message || String(e)` of line 64. -/
def errorText (e : JSError) : JSVal :=
  e.message.or (JSVal.str e.text)

/-- The HTTP function `setAdminClaimHttp`. -/
def setAdminClaimHttp (cfg : ServerConfig) (auth : AuthService) (req : Request) : HttpRun :=
  if req.method = "OPTIONS" then
    { response := { status := 204, headers := corsHeaders, body := ResponseBody.text "" },
      authLog := [] }
  else
    let provided := providedSecret req
    let expected := expectedSecret cfg
    if !expected.truthy then
      { response :=
          { status := 500, headers := corsHeaders,
            body := ResponseBody.json false
              (some (JSVal.str
                "Missing server secret (ADMIN_SETUP_SECRET or functions config admin.setup_secret)."))
              none },
        authLog := [] }
    else if !(provided.strictEq expected) then
      { response :=
          { status := 403, headers := corsHeaders,
            body := ResponseBody.json false (some (JSVal.str "Forbidden: invalid secret")) none },
        authLog := [] }
    else
      let uid := requestUid req
      if uid = "" then
        { response :=
            { status := 400, headers := corsHeaders,
              body := ResponseBody.json false (some (JSVal.str "uid is required")) none },
          authLog := [] }
      else
        match auth.setCustomUserClaims uid with
        | some e =>
          { response :=
              { status := 500, headers := corsHeaders,
                body := ResponseBody.json false (some (errorText e)) none },
            authLog := [AuthEvent.setCustomUserClaims uid false] }
        | none =>
          match auth.revokeRefreshTokens uid with
          | some e =>
            { response :=
                { status := 500, headers := corsHeaders,
                  body := ResponseBody.json false (some (errorText e)) none },
              authLog := [AuthEvent.setCustomUserClaims uid true,
                AuthEvent.revokeRefreshTokens uid false] }
          | none =>
            { response :=
                { status := 200, headers := corsHeaders,
                  body := ResponseBody.json true none (some uid) },
              authLog := [AuthEvent.setCustomUserClaims uid true,
                AuthEvent.revokeRefreshTokens uid true] }

/-- The `ok` field of a JSON response, `none` for a response that is not
one. -/
def Response.okField (r : Response) : Option Bool :=
  match r.body with
  | ResponseBody.text _ => none
  | ResponseBody.json ok _ _ => some ok

/-- Whether the log shows a `setCustomUserClaims` call that resolved: the
admin claim was granted to some identity. -/
def claimGranted (log : List AuthEvent) : Bool :=
  log.any (fun e => match e with
    | AuthEvent.setCustomUserClaims _ ok => ok
    | AuthEvent.revokeRefreshTokens _ _ => false)

/-! ## Tooltip percentage (src/js/utils/chartUtils.js, lines 113-119)

The counts are JavaScript numbers, IEEE binary64.  A count is given as the
natural number it holds (one a double holds exactly); the division and the
multiplication round to the nearest double, ties to even.  Overflow and
subnormal results are out of reach for such operands and are not modelled. -/

/-- A finite non-negative double, `man * 2 ^ exp`. -/
structure Dyadic where
  man : Nat
  exp : Int
  deriving DecidableEq, Repr

/-- The number of binary digits of `n` (`fuel` bounds the recursion; `n`
itself is enough). -/
def bitLength : Nat → Nat → Nat
  | 0, _ => 0
  | fuel + 1, n => if n = 0 then 0 else bitLength fuel (n / 2) + 1

/-- The numerator of `num / den / 2 ^ e` as a fraction of naturals. -/
def scaleNum (num : Nat) (e : Int) : Nat := if e < 0 then num * 2 ^ (-e).toNat else num

/-- The denominator of `num / den / 2 ^ e` as a fraction of naturals. -/
def scaleDen (den : Nat) (e : Int) : Nat := if e < 0 then den else den * 2 ^ e.toNat

/-- The multiple of `2 ^ e` nearest to `num / den`, ties to the even
multiple. -/
def roundAt (num den : Nat) (e : Int) : Dyadic :=
  let n := scaleNum num e
  let d := scaleDen den e
  let m := n / d
  let r := n % d
  if 2 * r > d ∨ (2 * r = d ∧ m % 2 = 1) then { man := m + 1, exp := e }
  else { man := m, exp := e }

/-- The double nearest to the fraction `num / den` (`den > 0`): the exponent
is chosen so that the quotient has 53 significant bits, then rounded. -/
def roundToDouble (num den : Nat) : Dyadic :=
  if num = 0 then { man := 0, exp := 0 }
  else
    let e0 : Int := (bitLength num num : Int) - (bitLength den den : Int) - 52
    if scaleDen den e0 * 2 ^ 52 ≤ scaleNum num e0 then roundAt num den e0
    else roundAt num den (e0 - 1)

/-- The integer a double holds, for a double that holds one. -/
def Dyadic.toNat (x : Dyadic) : Nat :=
  if x.exp < 0 then x.man / 2 ^ (-x.exp).toNat else x.man * 2 ^ x.exp.toNat

/-- The sum `a + b` of two counts, as a double. -/
def addCounts (a b : Nat) : Nat := (roundToDouble (a + b) 1).toNat

/-- A number the tooltip computes: `NaN`, `Infinity` or a finite double. -/
inductive JSNumber where
  | nan
  | posInf
  | finite (x : Dyadic)
  deriving DecidableEq, Repr

/-- The quotient `value / total` of two counts. -/
def divCounts (value total : Nat) : JSNumber :=
  if total = 0 then (if value = 0 then JSNumber.nan else JSNumber.posInf)
  else JSNumber.finite (roundToDouble value total)

/-- The product `x * 100`. -/
def times100 : JSNumber → JSNumber
  | JSNumber.nan => JSNumber.nan
  | JSNumber.posInf => JSNumber.posInf
  | JSNumber.finite x =>
    if x.exp < 0 then JSNumber.finite (roundToDouble (100 * x.man) (2 ^ (-x.exp).toNat))
    else JSNumber.finite (roundToDouble (100 * x.man * 2 ^ x.exp.toNat) 1)

/-- What `Math.round` returns here: `NaN`, `Infinity` or an integer. -/
inductive Rounded where
  | nan
  | posInf
  | int (n : Nat)
  deriving DecidableEq, Repr

/-- The function `Math.round(x)`: the nearest integer, a tie going up. -/
def mathRound : JSNumber → Rounded
  | JSNumber.nan => Rounded.nan
  | JSNumber.posInf => Rounded.posInf
  | JSNumber.finite x =>
    if x.exp < 0 then Rounded.int ((2 * x.man + 2 ^ (-x.exp).toNat) / 2 ^ ((-x.exp).toNat + 1))
    else Rounded.int (x.man * 2 ^ x.exp.toNat)

/-- The text a template literal gives for a non-negative integer: its decimal
digits when it is a safe integer (below `2 ^ 53`).  A larger number prints
digits rounded to the shortest that identify the double; that printing is
left out, the text is `none`. -/
def integerText (n : Nat) : Option String :=
  if n < 2 ^ 53 then some (toString n) else none

/-- The text a template literal gives for the rounded number. -/
def Rounded.toStr : Rounded → Option String
  | Rounded.nan => some "NaN"
  | Rounded.posInf => some "Infinity"
  | Rounded.int n => integerText n

/-- The constant `total`: `context.dataset.data.reduce((a, b) => a + b, 0)`. -/
def chartTotal (data : List Nat) : Nat := data.foldl addCounts 0

/-- The constant `percentage` of the tooltip label callback, for the entry
whose count is `raw` in the dataset `data`. -/
def tooltipPercentage (data : List Nat) (raw : Nat) : Rounded :=
  let value := raw
  let total := chartTotal data
  mathRound (times100 (divCounts value total))

/-- The label the callback returns, a string label given (`none` where the
text of a number is left out). -/
def tooltipLabel (label : String) (data : List Nat) (raw : Nat) : Option String :=
  match integerText raw, (tooltipPercentage data raw).toStr with
  | some value, some percentage =>
    some (label ++ ": " ++ value ++ " (" ++ percentage ++ "%)")
  | _, _ => none

/-! ## Dashboard feeds (src/js/admin.js, lines 13-100) -/

/-- The two live feeds: the recent spins query and the prize statistics
document. -/
inductive Feed where
  | spins
  | stats
  deriving DecidableEq, Repr

/-- A snapshot listener attached to the store. -/
structure Listener where
  feed : Feed
  id : Nat
  deriving DecidableEq, Repr

/-- The page and its store client.  `listeners` are the listeners currently
attached and `nextId` numbers them; `unsubscribeSpins` and `unsubscribeStats`
are the module variables of those names, `none` for `null` and otherwise the
unsubscribe function `onSnapshot` returned, named by the listener it detaches.
`history` records the attached listeners after every attach and detach. -/
structure Dashboard where
  listeners : List Listener
  nextId : Nat
  unsubscribeSpins : Option Listener
  unsubscribeStats : Option Listener
  history : List (List Listener)
  deriving DecidableEq, Repr

/-- The page as loaded: lines 13-14, nothing attached. -/
def Dashboard.initial : Dashboard :=
  { listeners := [], nextId := 0, unsubscribeSpins := none, unsubscribeStats := none,
    history := [] }

/-- The store call `onSnapshot` on a feed: attaches a new listener and
returns the function that detaches it. -/
def onSnapshot (feed : Feed) (s : Dashboard) : Dashboard × Listener :=
  let l : Listener := { feed := feed, id := s.nextId }
  ({ s with listeners := s.listeners ++ [l], nextId := s.nextId + 1,
            history := s.history ++ [s.listeners ++ [l]] }, l)

/-- Calling the function `onSnapshot` returned for `l`: detaches `l`, and
does nothing when `l` is already detached. -/
def unsubscribe (l : Listener) (s : Dashboard) : Dashboard :=
  { s with listeners := s.listeners.filter (fun x => x != l),
           history := s.history ++ [s.listeners.filter (fun x => x != l)] }

/-- The statement `if (unsubscribe) { unsubscribe(); }` on a module variable:
the function it holds, if any, is called. -/
def release (slot : Option Listener) (s : Dashboard) : Dashboard :=
  match slot with
  | some l => unsubscribe l s
  | none => s

/-- The function `loadSpins`. -/
def loadSpins (s : Dashboard) : Dashboard :=
  let s1 := release s.unsubscribeSpins s
  let r := onSnapshot Feed.spins s1
  { r.1 with unsubscribeSpins := some r.2 }

/-- The function `loadStats`. -/
def loadStats (s : Dashboard) : Dashboard :=
  let s1 := release s.unsubscribeStats s
  let r := onSnapshot Feed.stats s1
  { r.1 with unsubscribeStats := some r.2 }

/-- The function `initDashboard`; the clock display and the registration of
the click handler do not touch the feeds. -/
def initDashboard (s : Dashboard) : Dashboard := loadStats (loadSpins s)

/-- The click handler of the refresh button (lines 36-40). -/
def refreshClick (s : Dashboard) : Dashboard := loadStats (loadSpins s)

/-- A dashboard operation: a run of `initDashboard` or a click on the refresh
button. -/
inductive DashboardOp where
  | init
  | refresh
  deriving DecidableEq, Repr

/-- Running one operation. -/
def DashboardOp.run (s : Dashboard) : DashboardOp → Dashboard
  | DashboardOp.init => initDashboard s
  | DashboardOp.refresh => refreshClick s

/-- Running a sequence of operations. -/
def runOps (s : Dashboard) (ops : List DashboardOp) : Dashboard :=
  ops.foldl DashboardOp.run s

/-- The listeners of a feed among the given ones. -/
def listenersOf (feed : Feed) (ls : List Listener) : List Listener :=
  ls.filter (fun l => l.feed == feed)

/-- The two module variables hold exactly the attached listeners of their
feeds, and at no recorded moment a feed had two listeners. -/
def Dashboard.Tidy (s : Dashboard) : Prop :=
  listenersOf Feed.spins s.listeners = s.unsubscribeSpins.toList
    ∧ listenersOf Feed.stats s.listeners = s.unsubscribeStats.toList
    ∧ ∀ snap ∈ s.history, ∀ feed, (listenersOf feed snap).length ≤ 1

/-! ## Sample inputs -/

/-- A caller signed in with `admin: true`. -/
def adminContext : CallableContext :=
  { auth := some { token := some { admin := JSVal.bool true } } }

/-- A path cut at its slashes (the character 47). -/
def pathSegments : List Char → List (List Char)
  | [] => [[]]
  | c :: cs =>
    if c = Char.ofNat 47 then [] :: pathSegments cs
    else
      match pathSegments cs with
      | [] => [[c]]
      | s :: ss => (c :: s) :: ss

/-- A client whose `doc` takes the paths Firestore takes under a collection:
an odd number of segments, none of them empty.  Ids the store assigns are
such paths; `a/b` and the empty string are not. -/
def firestoreDocOk (path : String) : Bool :=
  (pathSegments path.data).all (fun s => !s.isEmpty)
    && (pathSegments path.data).length % 2 == 1

/-- A payload of `n` copies of one id between empty entries. -/
def repeatedIds (n : Nat) : Option CallData :=
  some { ids := some ([IdEntry.value JSVal.undefined, IdEntry.value (JSVal.str "")]
    ++ List.replicate n (IdEntry.value (JSVal.str "spin"))
    ++ [IdEntry.value JSVal.null]) }

/-- A payload of three ids, the second holding a slash. -/
def slashIds : Option CallData :=
  some { ids := some [IdEntry.value (JSVal.str "ok"), IdEntry.value (JSVal.str "a/b"),
    IdEntry.value (JSVal.str "z")] }

/-- A server with `ADMIN_SETUP_SECRET` set. -/
def sampleConfig : ServerConfig :=
  { envSecret := JSVal.str "s3cret", configSecret := JSVal.undefined }

/-- An identity service whose calls resolve. -/
def healthyIdentity : AuthService :=
  { setCustomUserClaims := fun _ => none, revokeRefreshTokens := fun _ => none }

/-- An identity service that grants claims but cannot revoke tokens. -/
def revokeFailsIdentity : AuthService :=
  { setCustomUserClaims := fun _ => none,
    revokeRefreshTokens := fun _ => some { message := JSVal.str "network", text := "Error" } }

/-- A request for uid `u1` with the given method and query secret. -/
def sampleRequest (method secret : String) : Request :=
  { method := method, querySecret := JSVal.str secret, queryUid := JSVal.str "u1",
    body := none, headerSecret := JSVal.undefined }

/-! ## Theorems -/

/-! ### Line 28, entry by entry -/

theorem addDeletes_accepted (docOk : String → Bool) (chunk : List IdEntry) :
    ∀ trace : List StoreEvent, (∀ v ∈ chunk, accepted docOk v = true) →
      addDeletes docOk chunk trace
        = (none, trace ++ (docIds chunk).map StoreEvent.delete) := by
  induction chunk with
  | nil => intro trace _; simp [addDeletes, docIds]
  | cons id rest ih =>
    intro trace h
    have hid := h id (List.mem_cons_self _ _)
    unfold accepted at hid
    cases hs : id.toStr with
    | none => rw [hs] at hid; cases hid
    | some path =>
      rw [hs] at hid
      simp only at hid
      rw [addDeletes, hs]
      simp only [hid, if_true]
      rw [ih _ (fun v hv => h v (List.mem_cons_of_mem _ hv))]
      simp [docIds, List.filterMap_cons, hs]

/-- Whatever happens on line 28, the log grows by deletes only; and when no
exception is thrown every entry of the chunk was accepted. -/
theorem addDeletes_log (docOk : String → Bool) (chunk : List IdEntry) :
    ∀ trace : List StoreEvent,
      (∃ ds : List String,
        (addDeletes docOk chunk trace).2 = trace ++ ds.map StoreEvent.delete)
      ∧ ((addDeletes docOk chunk trace).1 = none →
          ∀ v ∈ chunk, accepted docOk v = true) := by
  induction chunk with
  | nil =>
    intro trace
    exact ⟨⟨[], by simp [addDeletes]⟩, by intro _ v hv; cases hv⟩
  | cons id rest ih =>
    intro trace
    cases hs : id.toStr with
    | none =>
      rw [addDeletes, hs]
      exact ⟨⟨[], by simp⟩, by intro h; cases h⟩
    | some path =>
      rw [addDeletes, hs]
      by_cases hd : docOk path = true
      · simp only [hd, if_true]
        obtain ⟨⟨ds, hds⟩, hall⟩ := ih (trace ++ [StoreEvent.delete path])
        refine ⟨⟨path :: ds, by rw [hds]; simp⟩, ?_⟩
        intro hnone v hv
        rcases List.mem_cons.mp hv with h | h
        · subst h; simp [accepted, hs, hd]
        · exact hall hnone v h
      · simp only [hd]
        exact ⟨⟨[], by simp⟩, by intro h; simp at h⟩

theorem docIds_accepted (docOk : String → Bool) (l : List IdEntry)
    (h : ∀ v ∈ l, accepted docOk v = true) :
    (docIds l).map some = l.map IdEntry.toStr := by
  induction l with
  | nil => rfl
  | cons id rest ih =>
    have hid := h id (List.mem_cons_self _ _)
    unfold accepted at hid
    cases hs : id.toStr with
    | none => rw [hs] at hid; cases hid
    | some path =>
      have := ih (fun v hv => h v (List.mem_cons_of_mem _ hv))
      simp only [docIds] at this ⊢
      simp [List.filterMap_cons, hs, this]

theorem docIds_length (docOk : String → Bool) (l : List IdEntry)
    (h : ∀ v ∈ l, accepted docOk v = true) : (docIds l).length = l.length := by
  have := congrArg List.length (docIds_accepted docOk l h)
  simpa using this

theorem docIds_append (a b : List IdEntry) : docIds (a ++ b) = docIds a ++ docIds b := by
  simp [docIds, List.filterMap_append]

theorem mem_slice (ids : List IdEntry) (i : Nat) (v : IdEntry) (h : v ∈ slice ids i) :
    v ∈ ids :=
  List.mem_of_mem_drop (List.mem_of_mem_take h)

/-! ### The loop, one pass at a time -/

theorem deleteLoop_exit (docOk : String → Bool) (commitOk : Nat → Bool) (ids : List IdEntry)
    (i deleted attempt : Nat) (trace : List StoreEvent) (h : ids.length ≤ i) :
    deleteLoop docOk commitOk ids i deleted attempt trace
      = { result := CallResult.returned deleted, trace := trace } := by
  rw [deleteLoop]
  simp [Nat.not_lt.mpr h]

theorem deleteLoop_pass (docOk : String → Bool) (commitOk : Nat → Bool) (ids : List IdEntry)
    (i deleted attempt : Nat) (trace : List StoreEvent) (h : i < ids.length)
    (hacc : ∀ v ∈ slice ids i, accepted docOk v = true)
    (hok : commitOk attempt = true) :
    deleteLoop docOk commitOk ids i deleted attempt trace
      = deleteLoop docOk commitOk ids (i + chunkSize) (deleted + (slice ids i).length)
          (attempt + 1) (trace ++ iterationTrace ids i true) := by
  rw [deleteLoop]
  simp only [h, if_true, addDeletes_accepted docOk _ _ hacc, hok]
  simp [iterationTrace, List.append_assoc]

theorem deleteLoop_reject (docOk : String → Bool) (commitOk : Nat → Bool) (ids : List IdEntry)
    (i deleted attempt : Nat) (trace : List StoreEvent) (h : i < ids.length)
    (hacc : ∀ v ∈ slice ids i, accepted docOk v = true)
    (hfail : commitOk attempt = false) :
    deleteLoop docOk commitOk ids i deleted attempt trace
      = { result := CallResult.commitRejected,
          trace := trace ++ iterationTrace ids i false } := by
  rw [deleteLoop]
  simp only [h, if_true, addDeletes_accepted docOk _ _ hacc, hfail]
  simp [iterationTrace, List.append_assoc]

/-- An exception on line 28 leaves the function with the log as it stands. -/
theorem deleteLoop_throw (docOk : String → Bool) (commitOk : Nat → Bool) (ids : List IdEntry)
    (i deleted attempt : Nat) (trace : List StoreEvent) (h : i < ids.length)
    (thrown : CallResult) (log : List StoreEvent)
    (hthrow : addDeletes docOk (slice ids i) (trace ++ [StoreEvent.batch]) = (some thrown, log)) :
    deleteLoop docOk commitOk ids i deleted attempt trace
      = { result := thrown, trace := log } := by
  rw [deleteLoop]
  simp only [h, if_true, hthrow]

theorem slice_length (ids : List IdEntry) (i : Nat) :
    (slice ids i).length = min chunkSize (ids.length - i) := by
  simp [slice, List.length_take, List.length_drop]

/-- After `m` passes without an exception whose commits all resolve, the loop
stands at index `i + chunkSize * m` with the logs of those passes appended. -/
theorem deleteLoop_passes (docOk : String → Bool) (commitOk : Nat → Bool)
    (ids : List IdEntry) (m : Nat) :
    ∀ (i deleted attempt : Nat) (trace : List StoreEvent),
      (∀ j, j < m → ∀ v ∈ slice ids (i + chunkSize * j), accepted docOk v = true) →
      (∀ j, j < m → commitOk (attempt + j) = true) →
      chunkSize * m < ids.length - i + chunkSize →
      deleteLoop docOk commitOk ids i deleted attempt trace
        = deleteLoop docOk commitOk ids (i + chunkSize * m)
            (deleted + min (chunkSize * m) (ids.length - i)) (attempt + m)
            (trace ++ (List.range m).flatMap
              (fun j => iterationTrace ids (i + chunkSize * j) true)) := by
  induction m with
  | zero => intro i deleted attempt trace _ _ _; simp
  | succ m ih =>
    intro i deleted attempt trace hacc hok hlt
    have hlt2 : chunkSize * m < ids.length - i + chunkSize := by
      simp only [chunkSize] at hlt ⊢; omega
    rw [ih i deleted attempt trace (fun j hj => hacc j (Nat.lt_succ_of_lt hj))
      (fun j hj => hok j (Nat.lt_succ_of_lt hj)) hlt2]
    have hi : i + chunkSize * m < ids.length := by
      simp only [chunkSize] at hlt ⊢; omega
    rw [deleteLoop_pass docOk commitOk ids _ _ _ _ hi (hacc m (Nat.lt_succ_self m))
      (hok m (Nat.lt_succ_self m))]
    have e1 : i + chunkSize * m + chunkSize = i + chunkSize * (m + 1) := by
      simp only [chunkSize]; omega
    have e2 : deleted + min (chunkSize * m) (ids.length - i)
          + (slice ids (i + chunkSize * m)).length
        = deleted + min (chunkSize * (m + 1)) (ids.length - i) := by
      rw [slice_length]; simp only [chunkSize]; omega
    rw [e1, e2, List.range_succ, List.flatMap_append, Nat.add_assoc attempt m 1]
    simp [List.append_assoc]

/-! ### Replaying the log of the loop -/

theorem replay_deletes (ds : List String) (s : Replay) :
    (ds.map StoreEvent.delete).foldl Replay.step s
      = { done := s.done, cur := s.cur ++ ds } := by
  induction ds generalizing s with
  | nil => simp
  | cons a l ih => simp [ih, Replay.step, List.append_assoc]

theorem replay_iteration (ids : List IdEntry) (i : Nat) (ok : Bool) (s : Replay) :
    (iterationTrace ids i ok).foldl Replay.step s
      = { done := s.done ++ [{ ops := docIds (slice ids i), committed := ok }],
          cur := [] } := by
  simp [iterationTrace, List.foldl_append, replay_deletes, Replay.step]

theorem replay_passes (ids : List IdEntry) (f : Nat → Nat) (m : Nat) (s : Replay) :
    (((List.range m).flatMap (fun j => iterationTrace ids (f j) true)).foldl Replay.step s).done
      = s.done ++ (List.range m).map
          (fun j => { ops := docIds (slice ids (f j)), committed := true }) := by
  induction m with
  | zero => simp
  | succ m ih =>
    rw [List.range_succ, List.flatMap_append, List.foldl_append]
    simp [replay_iteration, ih, List.append_assoc]

theorem deletesOf_append (a b : List StoreEvent) :
    deletesOf (a ++ b) = deletesOf a ++ deletesOf b := by
  simp [deletesOf, List.filterMap_append]

theorem deletesOf_deletes (ds : List String) :
    deletesOf (ds.map StoreEvent.delete) = ds := by
  induction ds with
  | nil => rfl
  | cons a l ih =>
    simp only [deletesOf] at ih ⊢
    simp [List.filterMap_cons, ih]

theorem deletesOf_iteration (ids : List IdEntry) (i : Nat) (ok : Bool) :
    deletesOf (iterationTrace ids i ok) = docIds (slice ids i) := by
  simp only [iterationTrace, deletesOf_append, deletesOf_deletes]
  simp [deletesOf]

theorem deletesOf_passes (ids : List IdEntry) (f : Nat → Nat) (m : Nat) :
    deletesOf ((List.range m).flatMap (fun j => iterationTrace ids (f j) true))
      = (List.range m).flatMap (fun j => docIds (slice ids (f j))) := by
  induction m with
  | zero => simp [deletesOf]
  | succ m ih =>
    rw [List.range_succ, List.flatMap_append, List.flatMap_append, deletesOf_append, ih]
    simp [deletesOf_iteration]

/-- Consecutive slices that reach the end of the list make up the rest of the
list. -/
theorem slices_flatten (ids : List IdEntry) (m : Nat) :
    ∀ i, ids.length - i ≤ chunkSize * m →
      (List.range m).flatMap (fun j => slice ids (i + chunkSize * j)) = ids.drop i := by
  induction m with
  | zero =>
    intro i h
    have : ids.length ≤ i := by omega
    simp [List.drop_eq_nil_of_le this]
  | succ m ih =>
    intro i h
    rw [List.range_succ_eq_map, List.flatMap_cons, List.flatMap_map]
    have hrest : (List.range m).flatMap (fun j => slice ids (i + chunkSize * (Nat.succ j)))
        = ids.drop (i + chunkSize) := by
      rw [← ih (i + chunkSize) (by simp only [chunkSize] at h ⊢; omega)]
      congr 1
      funext j
      congr 1
      simp only [chunkSize]; omega
    have h0 : slice ids (i + chunkSize * 0) = (ids.drop i).take chunkSize := by
      simp [slice]
    simp only [Function.comp_def] at *
    rw [h0, hrest, ← List.drop_drop, List.take_append_drop]

/-- The first `m` slices make up the first `chunkSize * m` entries. -/
theorem slices_take (ids : List IdEntry) (m : Nat) :
    (List.range m).flatMap (fun j => slice ids (chunkSize * j)) = ids.take (chunkSize * m) := by
  induction m with
  | zero => simp
  | succ m ih =>
    rw [List.range_succ, List.flatMap_append, ih, Nat.mul_succ, List.take_add]
    simp [slice]

theorem docIds_flatMap (n : Nat) (f : Nat → List IdEntry) :
    (List.range n).flatMap (fun j => docIds (f j)) = docIds ((List.range n).flatMap f) := by
  induction n with
  | zero => simp [docIds]
  | succ n ih =>
    rw [List.range_succ, List.flatMap_append, List.flatMap_append, ih, docIds_append]
    simp

/-- With entries that are all accepted and a store whose commits all
resolve, the loop runs to its end: it returns the length of the list and its
log is one pass per chunk. -/
theorem deleteLoop_all_ok (docOk : String → Bool) (commitOk : Nat → Bool)
    (ids : List IdEntry) (hacc : ∀ v ∈ ids, accepted docOk v = true)
    (hok : ∀ n, commitOk n = true) :
    deleteLoop docOk commitOk ids 0 0 0 []
      = { result := CallResult.returned ids.length,
          trace := (List.range ((ids.length + 399) / 400)).flatMap
            (fun j => iterationTrace ids (chunkSize * j) true) } := by
  rw [deleteLoop_passes docOk commitOk ids ((ids.length + 399) / 400) 0 0 0 []
    (fun j _ v hv => hacc v (mem_slice ids _ v hv))
    (fun j _ => hok _) (by simp only [chunkSize]; omega)]
  rw [deleteLoop_exit _ _ _ _ _ _ _ (by simp only [chunkSize]; omega)]
  have e : 0 + min (chunkSize * ((ids.length + 399) / 400)) (ids.length - 0) = ids.length := by
    simp only [chunkSize]; omega
  rw [e]
  simp

/-! ### `adminDeleteSpins` -/

theorem isAdmin_iff (context : CallableContext) :
    isAdmin context = true ↔
      ∃ auth t, context.auth = some auth ∧ auth.token = some t ∧ t.admin.truthy = true := by
  unfold isAdmin
  cases hA : context.auth with
  | none => simp
  | some auth =>
    cases hT : auth.token with
    | none => simp [hT]
    | some t => simp [hT]

theorem filteredIds_eq (data : Option CallData) :
    filteredIds data = (payloadIds data).filter IdEntry.truthy := by
  cases data with
  | none => rfl
  | some d =>
    cases hids : d.ids with
    | none => simp [filteredIds, payloadIds, hids]
    | some xs => simp [filteredIds, payloadIds, hids]

theorem filteredIds_length (data : Option CallData) :
    (filteredIds data).length = submittedCount data := by
  rw [filteredIds_eq, submittedCount, List.countP_eq_length_filter]

/-- Past the two authorisation checks the call is the early return or the
loop. -/
theorem adminDeleteSpins_admin (docOk : String → Bool) (commitOk : Nat → Bool)
    (data : Option CallData) (context : CallableContext) (hadmin : isAdmin context = true) :
    adminDeleteSpins docOk commitOk data context
      = if (filteredIds data).length = 0 then { result := CallResult.returned 0, trace := [] }
        else deleteLoop docOk commitOk (filteredIds data) 0 0 0 [] := by
  obtain ⟨auth, t, hA, hT, ht⟩ := (isAdmin_iff context).mp hadmin
  simp [adminDeleteSpins, hA, hT, ht]

/-- A caller that fails an authorisation check leaves the store alone. -/
theorem adminDeleteSpins_not_admin (docOk : String → Bool) (commitOk : Nat → Bool)
    (data : Option CallData) (context : CallableContext) (hdenied : isAdmin context = false) :
    (adminDeleteSpins docOk commitOk data context).trace = []
      ∧ (adminDeleteSpins docOk commitOk data context).result
        = (match context.auth with
          | none => CallResult.httpsError "unauthenticated" "Authentication required."
          | some _ => CallResult.httpsError "permission-denied" "Admin privileges required.") := by
  cases hA : context.auth with
  | none => simp [adminDeleteSpins, hA]
  | some auth =>
    cases hT : auth.token with
    | none => simp [adminDeleteSpins, hA, hT, JSVal.truthy]
    | some t =>
      have ht : t.admin.truthy = false := by simpa [isAdmin, hA, hT] using hdenied
      simp [adminDeleteSpins, hA, hT, ht]

theorem filteredIds_accepted (docOk : String → Bool) (data : Option CallData)
    (hacc : ∀ v ∈ payloadIds data, v.truthy = true → accepted docOk v = true) :
    ∀ v ∈ filteredIds data, accepted docOk v = true := by
  intro v hv
  rw [filteredIds_eq, List.mem_filter] at hv
  exact hacc v hv.1 hv.2

/-- With entries that line 28 accepts and a store whose commits all resolve,
an authorised call returns the number of filtered ids and logs one pass per
chunk (none for an empty list). -/
theorem adminDeleteSpins_all_ok (docOk : String → Bool) (commitOk : Nat → Bool)
    (data : Option CallData) (context : CallableContext) (hadmin : isAdmin context = true)
    (hacc : ∀ v ∈ payloadIds data, v.truthy = true → accepted docOk v = true)
    (hok : ∀ n, commitOk n = true) :
    adminDeleteSpins docOk commitOk data context
      = { result := CallResult.returned (filteredIds data).length,
          trace := (List.range (((filteredIds data).length + 399) / 400)).flatMap
            (fun j => iterationTrace (filteredIds data) (chunkSize * j) true) } := by
  rw [adminDeleteSpins_admin docOk commitOk data context hadmin]
  by_cases h0 : (filteredIds data).length = 0
  · simp [h0]
  · simp only [h0, if_false]
    exact deleteLoop_all_ok docOk commitOk _ (filteredIds_accepted docOk data hacc) hok

theorem batchesOf_passes (ids : List IdEntry) (f : Nat → Nat) (m : Nat) :
    batchesOf ((List.range m).flatMap (fun j => iterationTrace ids (f j) true))
      = (List.range m).map
          (fun j => { ops := docIds (slice ids (f j)), committed := true }) := by
  simp [batchesOf, replay_passes]

theorem committedBatches_passes (ids : List IdEntry) (f : Nat → Nat) (m : Nat) :
    committedBatches ((List.range m).flatMap (fun j => iterationTrace ids (f j) true))
      = (List.range m).map (fun j => docIds (slice ids (f j))) := by
  simp [committedBatches, batchesOf_passes, List.filter_map, Function.comp_def]

theorem map_range_const {α : Type} (f : Nat → α) (c : α) (q : Nat)
    (h : ∀ j, j < q → f j = c) : (List.range q).map f = List.replicate q c := by
  induction q with
  | zero => simp
  | succ q ih =>
    rw [List.range_succ, List.map_append, ih (fun j hj => h j (Nat.lt_succ_of_lt hj)),
      List.replicate_succ']
    simp [h q (Nat.lt_succ_self q)]

theorem ceil_div_chunk (L : Nat) : ⌈(L : ℚ) / 400⌉₊ = (L + 399) / 400 := by
  apply le_antisymm
  · apply Nat.ceil_le.mpr
    rw [div_le_iff₀ (by norm_num)]
    have h : L ≤ (L + 399) / 400 * 400 := by omega
    exact_mod_cast h
  · have h1 : (L : ℚ) / 400 ≤ (⌈(L : ℚ) / 400⌉₊ : ℚ) := Nat.le_ceil _
    rw [div_le_iff₀ (by norm_num)] at h1
    have h2 : L ≤ ⌈(L : ℚ) / 400⌉₊ * 400 := by exact_mod_cast h1
    omega

/-- The sizes of the batches that cover a list of accepted entries of length
`L`. -/
theorem slice_sizes (docOk : String → Bool) (ids : List IdEntry)
    (hacc : ∀ v ∈ ids, accepted docOk v = true) :
    (List.range ((ids.length + 399) / 400)).map
        (fun j => (docIds (slice ids (chunkSize * j))).length)
      = List.replicate (ids.length / 400) 400
          ++ (if ids.length % 400 = 0 then [] else [ids.length % 400]) := by
  have hlen : ∀ j, (docIds (slice ids (chunkSize * j))).length
      = min chunkSize (ids.length - chunkSize * j) := by
    intro j
    rw [docIds_length docOk _ (fun v hv => hacc v (mem_slice ids _ v hv)), slice_length]
  simp only [hlen]
  by_cases hr : ids.length % 400 = 0
  · have e : (ids.length + 399) / 400 = ids.length / 400 := by omega
    rw [e, if_pos hr, List.append_nil]
    apply map_range_const
    intro j hj
    simp only [chunkSize]; omega
  · have e : (ids.length + 399) / 400 = ids.length / 400 + 1 := by omega
    rw [e, if_neg hr, List.range_succ, List.map_append]
    congr 1
    · apply map_range_const
      intro j hj
      simp only [chunkSize]; omega
    · simp only [List.map_cons, List.map_nil, chunkSize]
      congr 1
      omega

/-! ### Sample payloads -/

theorem submittedCount_repeatedIds (n : Nat) : submittedCount (repeatedIds n) = n := by
  simp [submittedCount, payloadIds, repeatedIds, List.countP_append, List.countP_replicate,
    List.countP_cons, IdEntry.truthy, JSVal.truthy]

theorem repeatedIds_accepted (n : Nat) :
    ∀ v ∈ payloadIds (repeatedIds n), v.truthy = true → accepted firestoreDocOk v = true := by
  intro v hv ht
  simp only [payloadIds, repeatedIds, List.mem_append, List.mem_cons, List.mem_singleton,
    List.not_mem_nil, or_false, List.mem_replicate] at hv
  rcases hv with ((h | h) | h) | h
  · subst h; cases ht
  · subst h; cases ht
  · rw [h.2]; decide
  · subst h; cases ht

/-- The call on three ids with a slash in the second: the first delete is
added, `doc` throws on `a/b`, nothing is committed. -/
theorem adminDeleteSpins_slashIds :
    adminDeleteSpins firestoreDocOk (fun _ => true) slashIds adminContext
      = { result := CallResult.docThrew,
          trace := [StoreEvent.batch, StoreEvent.delete "ok"] } := by
  rw [adminDeleteSpins_admin firestoreDocOk (fun _ => true) slashIds adminContext rfl,
    if_neg (by decide)]
  exact deleteLoop_throw _ _ _ _ _ _ _ (by decide) _ _ (by decide)

theorem submittedCount_slashIds : submittedCount slashIds = 3 := by decide

/-- The deletes of the passes that cover a list are the strings of its
entries. -/
theorem passes_docIds (ids : List IdEntry) :
    (List.range ((ids.length + 399) / 400)).flatMap
        (fun j => docIds (slice ids (chunkSize * j)))
      = docIds ids := by
  rw [docIds_flatMap]
  have h := slices_flatten ids ((ids.length + 399) / 400) 0 (by simp only [chunkSize]; omega)
  simp only [Nat.zero_add, List.drop_zero] at h
  rw [h]

/-- C1, as the code has it: for an authorised call whose filtered entries
each convert to a string that `doc` takes as a document name (as the ids the
store assigns do), with a store whose commits all resolve, the call commits
exactly `ceil(L / 400)` batches and attempts no other, `L` being the number
of entries of the input that are not empty; the committed batches hold 400
deletes each, except that when `L` is not a multiple of 400 the last one
holds `L mod 400`. -/
theorem adminDeleteSpins_chunk_sizes (docOk : String → Bool) (commitOk : Nat → Bool)
    (data : Option CallData) (context : CallableContext) (hadmin : isAdmin context = true)
    (hacc : ∀ v ∈ payloadIds data, v.truthy = true → accepted docOk v = true)
    (hok : ∀ n, commitOk n = true) :
    (committedBatches (adminDeleteSpins docOk commitOk data context).trace).length
        = ⌈(submittedCount data : ℚ) / 400⌉₊
      ∧ (batchesOf (adminDeleteSpins docOk commitOk data context).trace).length
        = ⌈(submittedCount data : ℚ) / 400⌉₊
      ∧ (committedBatches (adminDeleteSpins docOk commitOk data context).trace).map List.length
        = List.replicate (submittedCount data / 400) 400
            ++ (if submittedCount data % 400 = 0 then [] else [submittedCount data % 400]) := by
  rw [adminDeleteSpins_all_ok docOk commitOk data context hadmin hacc hok, ceil_div_chunk,
    ← filteredIds_length]
  simp only [committedBatches_passes, batchesOf_passes, List.length_map, List.length_range,
    List.map_map, true_and]
  have h := slice_sizes docOk (filteredIds data) (filteredIds_accepted docOk data hacc)
  simpa [Function.comp_def] using h

/-- C1, at 950 ids among three empty entries: three batches, of 400, 400 and
150 deletes. -/
theorem adminDeleteSpins_chunk_sizes_witness :
    (committedBatches (adminDeleteSpins firestoreDocOk (fun _ => true) (repeatedIds 950)
        adminContext).trace).map List.length
      = [400, 400, 150] := by
  have h := adminDeleteSpins_chunk_sizes firestoreDocOk (fun _ => true)
    (repeatedIds 950) adminContext rfl (repeatedIds_accepted 950) (fun _ => rfl)
  rw [submittedCount_repeatedIds] at h
  rw [h.2.2]
  decide

/-- C1 as stated fails: three ids, the second holding a slash, with commits
that all resolve: `L = 3` asks for one committed batch, the call throws at
`doc('a/b')` and commits none. -/
theorem adminDeleteSpins_chunk_sizes_slash :
    submittedCount slashIds = 3
      ∧ (committedBatches (adminDeleteSpins firestoreDocOk (fun _ => true) slashIds
          adminContext).trace).length = 0
      ∧ (committedBatches (adminDeleteSpins firestoreDocOk (fun _ => true) slashIds
          adminContext).trace).length ≠ ⌈(submittedCount slashIds : ℚ) / 400⌉₊ := by
  rw [adminDeleteSpins_slashIds, ceil_div_chunk, submittedCount_slashIds]
  decide

/-- C3, as the code has it: for an authorised call whose filtered entries
each convert to a string that `doc` takes, in which every commit resolves,
the returned count is the number of entries of the input that are not empty,
whatever the store holds, and it is the number of deletes submitted to the
store, all of them in committed batches. -/
theorem adminDeleteSpins_deleted_count (docOk : String → Bool) (commitOk : Nat → Bool)
    (data : Option CallData) (context : CallableContext) (hadmin : isAdmin context = true)
    (hacc : ∀ v ∈ payloadIds data, v.truthy = true → accepted docOk v = true)
    (hok : ∀ n, commitOk n = true) :
    (adminDeleteSpins docOk commitOk data context).result
        = CallResult.returned (submittedCount data)
      ∧ (deletesOf (adminDeleteSpins docOk commitOk data context).trace).length
        = submittedCount data
      ∧ (committedBatches (adminDeleteSpins docOk commitOk data context).trace).flatten.length
        = submittedCount data := by
  rw [adminDeleteSpins_all_ok docOk commitOk data context hadmin hacc hok]
  simp only [deletesOf_passes, committedBatches_passes, ← List.flatMap_def, passes_docIds]
  rw [docIds_length docOk _ (filteredIds_accepted docOk data hacc), filteredIds_length]
  exact ⟨rfl, rfl, rfl⟩

/-- C3, at 950 ids among three empty entries: `deleted = 950`, and 950
deletes submitted. -/
theorem adminDeleteSpins_deleted_count_witness :
    (adminDeleteSpins firestoreDocOk (fun _ => true) (repeatedIds 950) adminContext).result
        = CallResult.returned 950
      ∧ (deletesOf (adminDeleteSpins firestoreDocOk (fun _ => true) (repeatedIds 950)
          adminContext).trace).length = 950 := by
  have h := adminDeleteSpins_deleted_count firestoreDocOk (fun _ => true)
    (repeatedIds 950) adminContext rfl (repeatedIds_accepted 950) (fun _ => rfl)
  rw [submittedCount_repeatedIds] at h
  exact ⟨h.1, h.2.1⟩

/-- C3 as stated fails: three ids, the second holding a slash, with commits
that all resolve: no `deleted = 3` is returned, the exception of `doc('a/b')`
leaves the function. -/
theorem adminDeleteSpins_deleted_count_slash :
    (adminDeleteSpins firestoreDocOk (fun _ => true) slashIds adminContext).result
        = CallResult.docThrew
      ∧ (adminDeleteSpins firestoreDocOk (fun _ => true) slashIds adminContext).result
        ≠ CallResult.returned (submittedCount slashIds) := by
  rw [adminDeleteSpins_slashIds, submittedCount_slashIds]
  decide

/-- C4: an authorised call whose `ids` is not an array, is empty, or holds
only falsy entries (the empty string, `undefined`, ...) returns `deleted = 0`
and performs no store operation at all. -/
theorem adminDeleteSpins_empty (docOk : String → Bool) (commitOk : Nat → Bool)
    (data : Option CallData) (context : CallableContext) (hadmin : isAdmin context = true)
    (hempty : ∀ d xs, data = some d → d.ids = some xs → ∀ v ∈ xs, v.truthy = false) :
    adminDeleteSpins docOk commitOk data context
      = { result := CallResult.returned 0, trace := [] } := by
  have h0 : (filteredIds data).length = 0 := by
    cases data with
    | none => rfl
    | some d =>
      cases hids : d.ids with
      | none => simp [filteredIds, hids]
      | some xs =>
        simp only [filteredIds, hids, List.length_eq_zero, List.filter_eq_nil_iff]
        intro v hv
        simp [hempty d xs rfl hids v hv]
  rw [adminDeleteSpins_admin docOk commitOk data context hadmin]
  simp [h0]

/-- C4, at a list of empty entries, with a client that would refuse every
path and reject every commit. -/
theorem adminDeleteSpins_empty_witness :
    adminDeleteSpins (fun _ => false) (fun _ => false)
        (some { ids := some [IdEntry.value JSVal.undefined, IdEntry.value (JSVal.str ""),
          IdEntry.value JSVal.null] })
        adminContext
      = { result := CallResult.returned 0, trace := [] } :=
  adminDeleteSpins_empty (fun _ => false) (fun _ => false)
    (some { ids := some [IdEntry.value JSVal.undefined, IdEntry.value (JSVal.str ""),
      IdEntry.value JSVal.null] })
    adminContext rfl
    (by
      intro d xs hd hx v hv
      cases hd
      cases hx
      simp only [List.mem_cons, List.mem_singleton, List.not_mem_nil, or_false] at hv
      rcases hv with h | h | h <;> subst h <;> rfl)

/-- C5: a caller that is not an authenticated admin is denied, with kind
`unauthenticated` when there is no verified identity and `permission-denied`
when there is one; for every input list the store is not touched. -/
theorem adminDeleteSpins_denied (docOk : String → Bool) (commitOk : Nat → Bool)
    (data : Option CallData) (context : CallableContext) (hdenied : isAdmin context = false) :
    (adminDeleteSpins docOk commitOk data context).trace = []
      ∧ (adminDeleteSpins docOk commitOk data context).result
        = (match context.auth with
          | none => CallResult.httpsError "unauthenticated" "Authentication required."
          | some _ => CallResult.httpsError "permission-denied" "Admin privileges required.") :=
  adminDeleteSpins_not_admin docOk commitOk data context hdenied

/-- C5, at a signed-in caller without the admin claim asking for one delete. -/
theorem adminDeleteSpins_denied_witness :
    (adminDeleteSpins firestoreDocOk (fun _ => true)
        (some { ids := some [IdEntry.value (JSVal.str "a")] })
        { auth := some { token := some { admin := JSVal.undefined } } }).trace = []
      ∧ (adminDeleteSpins firestoreDocOk (fun _ => true)
        (some { ids := some [IdEntry.value (JSVal.str "a")] })
        { auth := some { token := some { admin := JSVal.undefined } } }).result
        = CallResult.httpsError "permission-denied" "Admin privileges required." :=
  adminDeleteSpins_denied firestoreDocOk (fun _ => true)
    (some { ids := some [IdEntry.value (JSVal.str "a")] })
    { auth := some { token := some { admin := JSVal.undefined } } } rfl

/-- C10, as the code has it: for an authorised call whose filtered entries
each convert to a string that `doc` takes, in which every commit resolves,
the deletes submitted, batch by batch in commit order, are the entries of the
input that are not empty, in input order (each as the string it converts to),
once per occurrence and nothing else; every batch the store saw was
committed. -/
theorem adminDeleteSpins_submits_filtered (docOk : String → Bool) (commitOk : Nat → Bool)
    (data : Option CallData) (context : CallableContext) (hadmin : isAdmin context = true)
    (hacc : ∀ v ∈ payloadIds data, v.truthy = true → accepted docOk v = true)
    (hok : ∀ n, commitOk n = true) :
    (committedBatches (adminDeleteSpins docOk commitOk data context).trace).flatten.map some
        = ((payloadIds data).filter IdEntry.truthy).map IdEntry.toStr
      ∧ (deletesOf (adminDeleteSpins docOk commitOk data context).trace).map some
        = ((payloadIds data).filter IdEntry.truthy).map IdEntry.toStr
      ∧ ∀ b ∈ batchesOf (adminDeleteSpins docOk commitOk data context).trace,
          b.committed = true := by
  rw [adminDeleteSpins_all_ok docOk commitOk data context hadmin hacc hok]
  simp only [deletesOf_passes, committedBatches_passes, batchesOf_passes, ← List.flatMap_def,
    passes_docIds]
  rw [docIds_accepted docOk _ (filteredIds_accepted docOk data hacc), filteredIds_eq]
  refine ⟨rfl, rfl, ?_⟩
  intro b hb
  simp only [List.mem_map, List.mem_range] at hb
  obtain ⟨j, _, rfl⟩ := hb
  rfl

/-- C10, at a list with an empty entry and a repeated id. -/
theorem adminDeleteSpins_submits_filtered_witness :
    deletesOf (adminDeleteSpins firestoreDocOk (fun _ => true)
        (some { ids := some [IdEntry.value (JSVal.str "a"), IdEntry.value (JSVal.str ""),
          IdEntry.value (JSVal.str "b"), IdEntry.value (JSVal.str "a")] })
        adminContext).trace
      = ["a", "b", "a"] := by
  have h := (adminDeleteSpins_submits_filtered firestoreDocOk (fun _ => true)
    (some { ids := some [IdEntry.value (JSVal.str "a"), IdEntry.value (JSVal.str ""),
      IdEntry.value (JSVal.str "b"), IdEntry.value (JSVal.str "a")] })
    adminContext rfl (by decide) (fun _ => rfl)).2.1
  have e : ((payloadIds (some { ids := some [IdEntry.value (JSVal.str "a"),
        IdEntry.value (JSVal.str ""), IdEntry.value (JSVal.str "b"),
        IdEntry.value (JSVal.str "a")] })).filter IdEntry.truthy).map IdEntry.toStr
      = (["a", "b", "a"] : List String).map some := by decide
  rw [e] at h
  exact List.map_injective_iff.mpr (Option.some_injective _) h

/-- C10 as stated fails: three ids, the second holding a slash, with commits
that all resolve: one delete is added, `doc('a/b')` throws, and nothing is
committed, where the three filtered ids were to be submitted. -/
theorem adminDeleteSpins_submits_filtered_slash :
    deletesOf (adminDeleteSpins firestoreDocOk (fun _ => true) slashIds adminContext).trace
        = ["ok"]
      ∧ committedBatches (adminDeleteSpins firestoreDocOk (fun _ => true) slashIds
          adminContext).trace = []
      ∧ (deletesOf (adminDeleteSpins firestoreDocOk (fun _ => true) slashIds
          adminContext).trace).map some
        ≠ ((payloadIds slashIds).filter IdEntry.truthy).map IdEntry.toStr := by
  rw [adminDeleteSpins_slashIds]
  decide

/-! ### A rejected commit, read off the store log -/

theorem replay_done_grows (l : List StoreEvent) :
    ∀ s : Replay, ∃ more, (l.foldl Replay.step s).done = s.done ++ more := by
  induction l with
  | nil => intro s; exact ⟨[], by simp⟩
  | cons e l ih =>
    intro s
    obtain ⟨more, h⟩ := ih (s.step e)
    rw [List.foldl_cons, h]
    cases e with
    | batch => exact ⟨more, rfl⟩
    | delete d => exact ⟨more, rfl⟩
    | commit ok =>
      exact ⟨{ ops := s.cur, committed := ok } :: more, by simp [Replay.step]⟩

theorem batchesOf_grows (t ext : List StoreEvent) :
    ∃ more, batchesOf (t ++ ext) = batchesOf t ++ more := by
  unfold batchesOf
  rw [List.foldl_append]
  exact replay_done_grows ext _

/-- A batch left open adds nothing to the batches of a log. -/
theorem batchesOf_open (t : List StoreEvent) (ds : List String) :
    batchesOf (t ++ [StoreEvent.batch] ++ ds.map StoreEvent.delete) = batchesOf t := by
  simp [batchesOf, List.foldl_append, replay_deletes, Replay.step]

theorem batchesOf_iteration (t : List StoreEvent) (ids : List IdEntry) (i : Nat) (ok : Bool) :
    batchesOf (t ++ iterationTrace ids i ok)
      = batchesOf t ++ [{ ops := docIds (slice ids i), committed := ok }] := by
  simp [batchesOf, List.foldl_append, replay_iteration]

/-- The four ways one pass of the loop can go: the loop is over, line 28
throws, the commit is rejected, or the commit resolves and the loop goes
on. -/
theorem deleteLoop_cases (docOk : String → Bool) (commitOk : Nat → Bool) (ids : List IdEntry)
    (i deleted attempt : Nat) (trace : List StoreEvent) :
    (ids.length ≤ i
        ∧ deleteLoop docOk commitOk ids i deleted attempt trace
          = { result := CallResult.returned deleted, trace := trace })
      ∨ (i < ids.length ∧ ∃ (thrown : CallResult) (ds : List String),
          deleteLoop docOk commitOk ids i deleted attempt trace
            = { result := thrown,
                trace := trace ++ [StoreEvent.batch] ++ ds.map StoreEvent.delete })
      ∨ (i < ids.length ∧ (∀ v ∈ slice ids i, accepted docOk v = true)
          ∧ commitOk attempt = false
          ∧ deleteLoop docOk commitOk ids i deleted attempt trace
            = { result := CallResult.commitRejected,
                trace := trace ++ iterationTrace ids i false })
      ∨ (i < ids.length ∧ (∀ v ∈ slice ids i, accepted docOk v = true)
          ∧ commitOk attempt = true
          ∧ deleteLoop docOk commitOk ids i deleted attempt trace
            = deleteLoop docOk commitOk ids (i + chunkSize) (deleted + (slice ids i).length)
                (attempt + 1) (trace ++ iterationTrace ids i true)) := by
  by_cases hi : i < ids.length
  · obtain ⟨⟨ds, hds⟩, hall⟩ :=
      addDeletes_log docOk (slice ids i) (trace ++ [StoreEvent.batch])
    cases hadd : addDeletes docOk (slice ids i) (trace ++ [StoreEvent.batch]) with
    | mk thrown log =>
      rw [hadd] at hds hall
      simp only at hds hall
      cases thrown with
      | some e =>
        right; left
        refine ⟨hi, e, ds, ?_⟩
        rw [deleteLoop_throw docOk commitOk ids i deleted attempt trace hi e log hadd, hds]
      | none =>
        have hacc := hall rfl
        cases hc : commitOk attempt with
        | false =>
          right; right; left
          exact ⟨hi, hacc, rfl, deleteLoop_reject docOk commitOk ids i deleted attempt trace hi
            hacc hc⟩
        | true =>
          right; right; right
          exact ⟨hi, hacc, rfl, deleteLoop_pass docOk commitOk ids i deleted attempt trace hi
            hacc hc⟩
  · left
    exact ⟨Nat.le_of_not_lt hi, deleteLoop_exit docOk commitOk ids i deleted attempt trace
      (Nat.le_of_not_lt hi)⟩

/-- The loop only adds to the log. -/
theorem deleteLoop_trace_grows (docOk : String → Bool) (commitOk : Nat → Bool)
    (ids : List IdEntry) (n : Nat) :
    ∀ (i deleted attempt : Nat) (trace : List StoreEvent), ids.length - i ≤ n →
      ∃ ext, (deleteLoop docOk commitOk ids i deleted attempt trace).trace = trace ++ ext := by
  induction n with
  | zero =>
    intro i deleted attempt trace h
    rw [deleteLoop_exit docOk commitOk ids i deleted attempt trace (by omega)]
    exact ⟨[], by simp⟩
  | succ n ih =>
    intro i deleted attempt trace h
    rcases deleteLoop_cases docOk commitOk ids i deleted attempt trace with
      ⟨_, hrun⟩ | ⟨_, e, ds, hrun⟩ | ⟨_, _, _, hrun⟩ | ⟨hi, _, _, hrun⟩
    · rw [hrun]; exact ⟨[], by simp⟩
    · rw [hrun]; exact ⟨[StoreEvent.batch] ++ ds.map StoreEvent.delete, by simp⟩
    · rw [hrun]; exact ⟨_, rfl⟩
    · rw [hrun]
      obtain ⟨ext, hext⟩ := ih (i + chunkSize) (deleted + (slice ids i).length) (attempt + 1)
        (trace ++ iterationTrace ids i true) (by simp only [chunkSize]; omega)
      rw [hext]
      exact ⟨iterationTrace ids i true ++ ext, by simp⟩

/-- When the log of the loop shows, `m` batches after those already in the
log, a batch whose commit was rejected: the `m` passes before it went through
with commits that resolved, the pass of that batch met no exception on line
28, and its commit is the one the store rejected. -/
theorem deleteLoop_failed_commit (docOk : String → Bool) (commitOk : Nat → Bool)
    (ids : List IdEntry) (m : Nat) :
    ∀ (i deleted attempt : Nat) (trace : List StoreEvent) (b : BatchRecord),
      (batchesOf (deleteLoop docOk commitOk ids i deleted attempt trace).trace)[
          (batchesOf trace).length + m]? = some b →
      b.committed = false →
      chunkSize * m < ids.length - i
        ∧ (∀ j, j ≤ m → ∀ v ∈ slice ids (i + chunkSize * j), accepted docOk v = true)
        ∧ (∀ j, j < m → commitOk (attempt + j) = true)
        ∧ commitOk (attempt + m) = false := by
  induction m with
  | zero =>
    intro i deleted attempt trace b hb hfail
    rcases deleteLoop_cases docOk commitOk ids i deleted attempt trace with
      ⟨_, hrun⟩ | ⟨_, e, ds, hrun⟩ | ⟨hi, hacc, hc, hrun⟩ | ⟨hi, hacc, hc, hrun⟩
    · rw [hrun] at hb
      simp only [Nat.add_zero] at hb
      rw [List.getElem?_eq_none (Nat.le_refl _)] at hb
      cases hb
    · rw [hrun] at hb
      simp only [batchesOf_open, Nat.add_zero] at hb
      rw [List.getElem?_eq_none (Nat.le_refl _)] at hb
      cases hb
    · refine ⟨by simp only [chunkSize]; omega, ?_, by intro j hj; omega, hc⟩
      intro j hj v hv
      have : j = 0 := by omega
      subst this
      exact hacc v (by simpa using hv)
    · exfalso
      rw [hrun] at hb
      obtain ⟨ext, hext⟩ := deleteLoop_trace_grows docOk commitOk ids
        (ids.length - (i + chunkSize)) (i + chunkSize) (deleted + (slice ids i).length)
        (attempt + 1) (trace ++ iterationTrace ids i true) (Nat.le_refl _)
      rw [hext] at hb
      obtain ⟨more, hmore⟩ := batchesOf_grows (trace ++ iterationTrace ids i true) ext
      rw [hmore, batchesOf_iteration, List.append_assoc, Nat.add_zero,
        List.getElem?_append_right (Nat.le_refl _)] at hb
      simp only [Nat.sub_self, List.singleton_append, List.getElem?_cons_zero,
        Option.some.injEq] at hb
      rw [← hb] at hfail
      cases hfail
  | succ m ih =>
    intro i deleted attempt trace b hb hfail
    rcases deleteLoop_cases docOk commitOk ids i deleted attempt trace with
      ⟨_, hrun⟩ | ⟨_, e, ds, hrun⟩ | ⟨hi, hacc, hc, hrun⟩ | ⟨hi, hacc, hc, hrun⟩
    · rw [hrun] at hb
      dsimp only at hb
      rw [List.getElem?_eq_none (by omega)] at hb
      cases hb
    · rw [hrun] at hb
      simp only [batchesOf_open] at hb
      rw [List.getElem?_eq_none (by omega)] at hb
      cases hb
    · rw [hrun] at hb
      dsimp only at hb
      rw [batchesOf_iteration, List.getElem?_eq_none (by simp)] at hb
      cases hb
    · rw [hrun] at hb
      have hlen : (batchesOf trace).length + (m + 1)
          = (batchesOf (trace ++ iterationTrace ids i true)).length + m := by
        rw [batchesOf_iteration]; simp; omega
      rw [hlen] at hb
      obtain ⟨h1, h2, h3, h4⟩ := ih (i + chunkSize) (deleted + (slice ids i).length)
        (attempt + 1) (trace ++ iterationTrace ids i true) b hb hfail
      refine ⟨by simp only [chunkSize] at h1 ⊢; omega, ?_, ?_, ?_⟩
      · intro j hj v hv
        cases j with
        | zero => exact hacc v (by simpa using hv)
        | succ j =>
          apply h2 j (by omega) v
          have e : i + chunkSize + chunkSize * j = i + chunkSize * (j + 1) := by
            simp only [chunkSize]; omega
          rw [e]; exact hv
      · intro j hj
        cases j with
        | zero => simpa using hc
        | succ j =>
          have := h3 j (by omega)
          have e : attempt + 1 + j = attempt + (j + 1) := by omega
          rw [e] at this; exact this
      · have e : attempt + 1 + m = attempt + (m + 1) := by omega
        rw [e] at h4; exact h4

/-- A store that resolves the first `m` commits and rejects the next one,
with no exception on line 28 up to that commit: the loop stops there and the
rejection leaves the function. -/
theorem deleteLoop_first_failure (docOk : String → Bool) (commitOk : Nat → Bool)
    (ids : List IdEntry) (m : Nat) (hm : chunkSize * m < ids.length)
    (hacc : ∀ j, j ≤ m → ∀ v ∈ slice ids (chunkSize * j), accepted docOk v = true)
    (hbefore : ∀ j, j < m → commitOk j = true) (hfail : commitOk m = false) :
    deleteLoop docOk commitOk ids 0 0 0 []
      = { result := CallResult.commitRejected,
          trace := (List.range m).flatMap (fun j => iterationTrace ids (chunkSize * j) true)
            ++ iterationTrace ids (chunkSize * m) false } := by
  rw [deleteLoop_passes docOk commitOk ids m 0 0 0 []
    (fun j hj v hv => hacc j (Nat.le_of_lt hj) v (by rw [Nat.zero_add] at hv; exact hv))
    (fun j hj => by rw [Nat.zero_add]; exact hbefore j hj) (by omega)]
  rw [deleteLoop_reject _ _ _ _ _ _ _ (by omega)
    (fun v hv => hacc m (Nat.le_refl m) v (by rw [Nat.zero_add] at hv; exact hv))
    (by rw [Nat.zero_add]; exact hfail)]
  simp

theorem batchesOf_first_failure (ids : List IdEntry) (m : Nat) :
    batchesOf ((List.range m).flatMap (fun j => iterationTrace ids (chunkSize * j) true)
        ++ iterationTrace ids (chunkSize * m) false)
      = (List.range m).map
          (fun j => { ops := docIds (slice ids (chunkSize * j)), committed := true })
        ++ [{ ops := docIds (slice ids (chunkSize * m)), committed := false }] := by
  rw [batchesOf_iteration, batchesOf_passes]

theorem mem_take_slices (ids : List IdEntry) (m : Nat) (v : IdEntry)
    (hv : v ∈ ids.take (chunkSize * m)) : ∃ j, j < m ∧ v ∈ slice ids (chunkSize * j) := by
  rw [← slices_take, List.mem_flatMap] at hv
  obtain ⟨j, hj, hmem⟩ := hv
  exact ⟨j, List.mem_range.mp hj, hmem⟩

/-- C2, as the code has it: when the store log shows the commit of chunk `k`
rejected, the call returns no count at all: the rejection leaves the
function.  Exactly `k` batches were attempted, so no chunk after chunk `k`;
the `k - 1` committed ones hold 400 deletes each, the first `400 * (k - 1)`
entries of the input that are not empty. -/
theorem adminDeleteSpins_commit_failure (docOk : String → Bool) (commitOk : Nat → Bool)
    (data : Option CallData) (context : CallableContext) (k : Nat) (hk : 1 ≤ k)
    (hkth : ((batchesOf (adminDeleteSpins docOk commitOk data context).trace)[k - 1]?).map
      (fun b => b.committed) = some false) :
    (adminDeleteSpins docOk commitOk data context).result = CallResult.commitRejected
      ∧ (batchesOf (adminDeleteSpins docOk commitOk data context).trace).length = k
      ∧ (committedBatches (adminDeleteSpins docOk commitOk data context).trace).map List.length
        = List.replicate (k - 1) 400
      ∧ (committedBatches (adminDeleteSpins docOk commitOk data context).trace).flatten.map some
        = (((payloadIds data).filter IdEntry.truthy).take (400 * (k - 1))).map
            IdEntry.toStr := by
  obtain ⟨b, hb, hfail⟩ := Option.map_eq_some'.mp hkth
  have hadmin : isAdmin context = true := by
    cases h : isAdmin context with
    | true => rfl
    | false =>
      rw [(adminDeleteSpins_not_admin docOk commitOk data context h).1] at hb
      simp [batchesOf] at hb
  rw [adminDeleteSpins_admin docOk commitOk data context hadmin] at hb ⊢
  have hne : ¬ (filteredIds data).length = 0 := by
    intro h0
    rw [if_pos h0] at hb
    simp [batchesOf] at hb
  rw [if_neg hne] at hb ⊢
  have hidx : k - 1 = (batchesOf ([] : List StoreEvent)).length + (k - 1) := by
    simp [batchesOf]
  rw [hidx] at hb
  obtain ⟨hm, hacc, hbefore, hlast⟩ :=
    deleteLoop_failed_commit docOk commitOk (filteredIds data) (k - 1) 0 0 0 [] b hb hfail
  simp only [Nat.sub_zero, Nat.zero_add] at hm hacc hbefore hlast
  rw [deleteLoop_first_failure docOk commitOk (filteredIds data) (k - 1) hm hacc hbefore hlast]
  simp only [batchesOf_first_failure, committedBatches]
  have hcommitted : (List.filter (fun b => b.committed)
      ((List.range (k - 1)).map
          (fun j => ({ ops := docIds (slice (filteredIds data) (chunkSize * j)),
                       committed := true } : BatchRecord))
        ++ [{ ops := docIds (slice (filteredIds data) (chunkSize * (k - 1))),
              committed := false }])).map (fun b => b.ops)
      = (List.range (k - 1)).map (fun j => docIds (slice (filteredIds data) (chunkSize * j))) := by
    simp [List.filter_append, List.filter_map, Function.comp_def]
  rw [hcommitted]
  refine ⟨trivial, by simp; omega, ?_, ?_⟩
  · rw [List.map_map]
    apply map_range_const
    intro j hj
    simp only [Function.comp_def]
    rw [docIds_length docOk _ (hacc j (by omega)), slice_length]
    simp only [chunkSize] at hm ⊢; omega
  · rw [← List.flatMap_def, docIds_flatMap, slices_take, ← filteredIds_eq]
    apply docIds_accepted docOk
    intro v hv
    obtain ⟨j, hj, hmem⟩ := mem_take_slices _ _ v hv
    exact hacc j (by omega) v hmem

/-- The call on 401 ids among empty entries, with a store that resolves the
first commit only. -/
theorem adminDeleteSpins_second_commit_fails :
    adminDeleteSpins firestoreDocOk (fun n => n == 0) (repeatedIds 401) adminContext
      = { result := CallResult.commitRejected,
          trace := (List.range 1).flatMap
              (fun j => iterationTrace (filteredIds (repeatedIds 401)) (chunkSize * j) true)
            ++ iterationTrace (filteredIds (repeatedIds 401)) (chunkSize * 1) false } := by
  have hlen : (filteredIds (repeatedIds 401)).length = 401 := by
    rw [filteredIds_length, submittedCount_repeatedIds]
  rw [adminDeleteSpins_admin firestoreDocOk _ (repeatedIds 401) adminContext rfl,
    if_neg (by rw [hlen]; decide)]
  exact deleteLoop_first_failure firestoreDocOk _ _ 1 (by rw [hlen]; decide)
    (fun j _ v hv => filteredIds_accepted firestoreDocOk _ (repeatedIds_accepted 401) v
      (mem_slice _ _ v hv))
    (fun j hj => by have : j = 0 := by omega
                    subst this; rfl)
    rfl

/-- C2, at 401 ids with a store that rejects the second commit: the call
is rejected, one batch of 400 stays committed and two were attempted. -/
theorem adminDeleteSpins_commit_failure_witness :
    (adminDeleteSpins firestoreDocOk (fun n => n == 0) (repeatedIds 401) adminContext).result
        = CallResult.commitRejected
      ∧ (batchesOf (adminDeleteSpins firestoreDocOk (fun n => n == 0) (repeatedIds 401)
          adminContext).trace).length = 2
      ∧ (committedBatches (adminDeleteSpins firestoreDocOk (fun n => n == 0) (repeatedIds 401)
          adminContext).trace).map List.length = [400] := by
  have h := adminDeleteSpins_commit_failure firestoreDocOk (fun n => n == 0)
    (repeatedIds 401) adminContext 2 (by decide)
    (by rw [adminDeleteSpins_second_commit_fails, batchesOf_first_failure]; rfl)
  exact ⟨h.1, h.2.1, h.2.2.1⟩

/-- C2 as stated fails: with one id and a store that rejects the first commit
(chunk `k = 1`), the caller gets no `deleted = 400 * (1 - 1)`; the call is
rejected. -/
theorem adminDeleteSpins_commit_failure_returns_nothing :
    (adminDeleteSpins firestoreDocOk (fun _ => false)
        (some { ids := some [IdEntry.value (JSVal.str "a")] }) adminContext).result
        ≠ CallResult.returned (400 * (1 - 1))
      ∧ (adminDeleteSpins firestoreDocOk (fun _ => false)
        (some { ids := some [IdEntry.value (JSVal.str "a")] }) adminContext).result
        = CallResult.commitRejected := by
  have h : (adminDeleteSpins firestoreDocOk (fun _ => false)
        (some { ids := some [IdEntry.value (JSVal.str "a")] }) adminContext).result
        = CallResult.commitRejected := by
    rw [adminDeleteSpins_admin firestoreDocOk (fun _ => false)
        (some { ids := some [IdEntry.value (JSVal.str "a")] }) adminContext rfl,
      if_neg (by decide),
      deleteLoop_first_failure firestoreDocOk (fun _ => false) _ 0 (by decide)
        (by decide) (by intro j hj; omega) rfl]
  exact ⟨by rw [h]; decide, h⟩

/-! ### `setAdminClaimHttp` -/

/-- C6, as the code has it: a request whose provided secret differs from the
expected one never reaches the identity service, whatever uid it carries.
Unless it is a CORS preflight, its response is `{ ok: false }`, with status
403 and `Forbidden: invalid secret` when an expected secret is configured; a
preflight (`OPTIONS`) is answered 204 with an empty body before any secret is
looked at. -/
theorem setAdminClaimHttp_wrong_secret (cfg : ServerConfig) (auth : AuthService)
    (req : Request)
    (hmis : (providedSecret req).strictEq (expectedSecret cfg) = false) :
    (setAdminClaimHttp cfg auth req).authLog = []
      ∧ (req.method ≠ "OPTIONS" →
          (setAdminClaimHttp cfg auth req).response.okField = some false
          ∧ ((expectedSecret cfg).truthy = true →
              (setAdminClaimHttp cfg auth req).response.status = 403
              ∧ (setAdminClaimHttp cfg auth req).response.body
                = ResponseBody.json false (some (JSVal.str "Forbidden: invalid secret")) none))
      ∧ (req.method = "OPTIONS" →
          (setAdminClaimHttp cfg auth req).response.status = 204
          ∧ (setAdminClaimHttp cfg auth req).response.body = ResponseBody.text "") := by
  unfold setAdminClaimHttp
  by_cases hm : req.method = "OPTIONS"
  · simp [hm]
  · by_cases he : (expectedSecret cfg).truthy = true
    · simp [hm, he, hmis, Response.okField]
    · simp [hm, he, Response.okField]

/-- C6, at a `GET` with a wrong secret in the query and a valid uid. -/
theorem setAdminClaimHttp_wrong_secret_witness :
    (setAdminClaimHttp sampleConfig healthyIdentity (sampleRequest "GET" "guess")).authLog = []
      ∧ (setAdminClaimHttp sampleConfig healthyIdentity
          (sampleRequest "GET" "guess")).response.status = 403 := by
  have h := setAdminClaimHttp_wrong_secret sampleConfig healthyIdentity
    (sampleRequest "GET" "guess") (by decide)
  exact ⟨h.1, ((h.2.1 (by decide)).2 (by decide)).1⟩

/-- C6 as stated fails: an `OPTIONS` request carrying a wrong secret, with an
expected secret configured, is answered 204 with an empty body, not 403
`{ ok: false }`. -/
theorem setAdminClaimHttp_preflight_not_denied :
    (providedSecret (sampleRequest "OPTIONS" "guess")).strictEq (expectedSecret sampleConfig)
        = false
      ∧ (expectedSecret sampleConfig).truthy = true
      ∧ (setAdminClaimHttp sampleConfig healthyIdentity
          (sampleRequest "OPTIONS" "guess")).response
        = { status := 204, headers := corsHeaders, body := ResponseBody.text "" }
      ∧ (setAdminClaimHttp sampleConfig healthyIdentity
          (sampleRequest "OPTIONS" "guess")).response.okField ≠ some false := by
  decide

/-- C7, as the code has it: the response is `{ ok: true }` only when the
claim was granted and the credentials were then invalidated; when the
response is `{ ok: false }` the claim has not been granted, except in one
case: the grant resolved and the invalidation rejected, which is answered 500
`{ ok: false }` with the claim left granted. -/
theorem setAdminClaimHttp_outcomes (cfg : ServerConfig) (auth : AuthService) (req : Request) :
    ((setAdminClaimHttp cfg auth req).response.okField = some true →
        (setAdminClaimHttp cfg auth req).authLog
          = [AuthEvent.setCustomUserClaims (requestUid req) true,
             AuthEvent.revokeRefreshTokens (requestUid req) true])
      ∧ ((setAdminClaimHttp cfg auth req).response.okField = some false →
          claimGranted (setAdminClaimHttp cfg auth req).authLog = true →
          (setAdminClaimHttp cfg auth req).authLog
            = [AuthEvent.setCustomUserClaims (requestUid req) true,
               AuthEvent.revokeRefreshTokens (requestUid req) false]
          ∧ (setAdminClaimHttp cfg auth req).response.status = 500) := by
  unfold setAdminClaimHttp
  by_cases hm : req.method = "OPTIONS"
  · simp [hm, Response.okField, claimGranted]
  · by_cases he : (expectedSecret cfg).truthy = true
    · by_cases hs : (providedSecret req).strictEq (expectedSecret cfg) = true
      · by_cases hu : requestUid req = ""
        · simp [hm, he, hs, hu, Response.okField, claimGranted]
        · cases h1 : auth.setCustomUserClaims (requestUid req) with
          | some e => simp [hm, he, hs, hu, h1, Response.okField, claimGranted]
          | none =>
            cases h2 : auth.revokeRefreshTokens (requestUid req) with
            | some e => simp [hm, he, hs, hu, h1, h2, Response.okField, claimGranted]
            | none => simp [hm, he, hs, hu, h1, h2, Response.okField, claimGranted]
      · simp [hm, he, hs, Response.okField, claimGranted]
    · simp [hm, he, Response.okField, claimGranted]

/-- C7 as stated fails: with the right secret and a uid, when
`setCustomUserClaims` resolves and `revokeRefreshTokens` rejects, the response
is 500 `{ ok: false }` and the admin claim has been granted. -/
theorem setAdminClaimHttp_partial_success :
    (setAdminClaimHttp sampleConfig revokeFailsIdentity
        (sampleRequest "POST" "s3cret")).response.okField = some false
      ∧ (setAdminClaimHttp sampleConfig revokeFailsIdentity
        (sampleRequest "POST" "s3cret")).response.status = 500
      ∧ claimGranted (setAdminClaimHttp sampleConfig revokeFailsIdentity
        (sampleRequest "POST" "s3cret")).authLog = true := by
  decide

/-! ### Tooltip percentage -/

/-- The scenario of the specification: counts 3 and 1 give 75 and 25. -/
theorem tooltipPercentage_gold_silver :
    tooltipPercentage [3, 1] 3 = Rounded.int 75
      ∧ tooltipPercentage [3, 1] 1 = Rounded.int 25 := by
  decide

/-- The quotient is rounded before it is multiplied: 29 of 200 is 14.5
exactly, the code computes `0.145 * 100 = 14.499999999999998` and shows 14. -/
theorem tooltipPercentage_rounds_quotient_first :
    tooltipPercentage [29, 171] 29 = Rounded.int 14 := by
  decide

/-- C8, the code at a dataset whose counts are all 0: the percentage is `NaN`
(the label reads `NaN%`), not 0. -/
theorem tooltipPercentage_zero_total :
    chartTotal [0, 0] = 0
      ∧ tooltipPercentage [0, 0] 0 = Rounded.nan
      ∧ tooltipPercentage [0, 0] 0 ≠ Rounded.int 0
      ∧ tooltipLabel "gold" [0, 0] 0 = some "gold: 0 (NaN%)" := by
  decide

/-! ### Dashboard feeds -/

theorem listenersOf_append (feed : Feed) (a b : List Listener) :
    listenersOf feed (a ++ b) = listenersOf feed a ++ listenersOf feed b := by
  simp [listenersOf]

theorem listenersOf_detach (feed : Feed) (l : Listener) (ls : List Listener) :
    listenersOf feed (ls.filter (fun x => x != l))
      = (listenersOf feed ls).filter (fun x => x != l) := by
  simp only [listenersOf, List.filter_filter]
  congr 1
  funext x
  exact Bool.and_comm _ _

theorem listenersOf_detach_other (feed : Feed) (l : Listener) (ls : List Listener)
    (h : l.feed ≠ feed) :
    (listenersOf feed ls).filter (fun x => x != l) = listenersOf feed ls := by
  apply List.filter_eq_self.mpr
  intro x hx
  simp only [listenersOf, List.mem_filter, beq_iff_eq] at hx
  simp only [bne_iff_ne, ne_eq]
  intro hxl
  exact h (by rw [← hxl]; exact hx.2)

/-- Releasing the listener a module variable holds and attaching a new one on
the same feed: that feed is left with the new listener alone, another feed
keeps its listeners, and no feed had two listeners on the way. -/
theorem reattach (feed : Feed) (slot : Option Listener) (s : Dashboard)
    (hslot : listenersOf feed s.listeners = slot.toList)
    (hone : ∀ g, (listenersOf g s.listeners).length ≤ 1)
    (hhist : ∀ snap ∈ s.history, ∀ g, (listenersOf g snap).length ≤ 1) :
    listenersOf feed
        (onSnapshot feed (release slot s)).1.listeners
        = [(onSnapshot feed (release slot s)).2]
      ∧ (∀ g, g ≠ feed →
          listenersOf g
            (onSnapshot feed (release slot s)).1.listeners
            = listenersOf g s.listeners)
      ∧ (∀ snap ∈ (onSnapshot feed (release slot s)).1.history,
          ∀ g, (listenersOf g snap).length ≤ 1) := by
  cases slot with
  | none =>
    simp only [Option.toList] at hslot
    have hnew : ∀ g, listenersOf g (s.listeners ++ [{ feed := feed, id := s.nextId }])
        = listenersOf g s.listeners
          ++ (if feed = g then [{ feed := feed, id := s.nextId }] else []) := by
      intro g
      rw [listenersOf_append]
      by_cases hg : feed = g <;> simp [listenersOf, hg]
    refine ⟨?_, ?_, ?_⟩
    · simp only [onSnapshot, release]
      rw [hnew, hslot]; simp
    · intro g hg
      simp only [onSnapshot, release]
      rw [hnew]; simp [Ne.symm hg]
    · intro snap hsnap g
      simp only [onSnapshot, release, List.mem_append, List.mem_singleton] at hsnap
      rcases hsnap with h | h
      · exact hhist snap h g
      · subst h
        rw [hnew]
        by_cases hg : feed = g
        · subst hg; rw [hslot]; simp
        · simp [hg]; exact hone g
  | some l =>
    simp only [Option.toList] at hslot
    have hl : l.feed = feed := by
      have : l ∈ listenersOf feed s.listeners := by rw [hslot]; simp
      simp only [listenersOf, List.mem_filter, beq_iff_eq] at this
      exact this.2
    have hdet : ∀ g, listenersOf g (s.listeners.filter (fun x => x != l))
        = if feed = g then [] else listenersOf g s.listeners := by
      intro g
      rw [listenersOf_detach]
      by_cases hg : feed = g
      · subst hg; rw [hslot]; simp
      · rw [if_neg hg]
        exact listenersOf_detach_other g l _ (by rw [hl]; exact hg)
    have hnew : ∀ g, listenersOf g
        (s.listeners.filter (fun x => x != l) ++ [{ feed := feed, id := s.nextId }])
        = if feed = g then [{ feed := feed, id := s.nextId }] else listenersOf g s.listeners := by
      intro g
      rw [listenersOf_append, hdet]
      by_cases hg : feed = g <;> simp [listenersOf, hg]
    refine ⟨?_, ?_, ?_⟩
    · simp only [onSnapshot, unsubscribe, release]
      rw [hnew]; simp
    · intro g hg
      simp only [onSnapshot, unsubscribe, release]
      rw [hnew]; simp [Ne.symm hg]
    · intro snap hsnap g
      simp only [onSnapshot, unsubscribe, release, List.mem_append, List.mem_singleton] at hsnap
      rcases hsnap with (h | h) | h
      · exact hhist snap h g
      · subst h
        rw [hdet]
        by_cases hg : feed = g
        · simp [hg]
        · simp [hg]; exact hone g
      · subst h
        rw [hnew]
        by_cases hg : feed = g
        · simp [hg]
        · simp [hg]; exact hone g

theorem tidy_at_most_one (s : Dashboard) (h : s.Tidy) (g : Feed) :
    (listenersOf g s.listeners).length ≤ 1 := by
  cases g with
  | spins => rw [h.1]; cases s.unsubscribeSpins <;> simp [Option.toList]
  | stats => rw [h.2.1]; cases s.unsubscribeStats <;> simp [Option.toList]

theorem reattach_slots (feed : Feed) (slot : Option Listener) (s : Dashboard) :
    (onSnapshot feed (release slot s)).1.unsubscribeSpins = s.unsubscribeSpins
      ∧ (onSnapshot feed (release slot s)).1.unsubscribeStats = s.unsubscribeStats := by
  cases slot <;> simp [onSnapshot, unsubscribe, release]

theorem tidy_loadSpins (s : Dashboard) (h : s.Tidy) :
    (loadSpins s).Tidy ∧ (loadSpins s).unsubscribeSpins.isSome = true
      ∧ (loadSpins s).unsubscribeStats = s.unsubscribeStats := by
  obtain ⟨h1, h2, h3⟩ :=
    reattach Feed.spins s.unsubscribeSpins s h.1 (tidy_at_most_one s h) h.2.2
  obtain ⟨_, k2⟩ := reattach_slots Feed.spins s.unsubscribeSpins s
  refine ⟨⟨?_, ?_, ?_⟩, rfl, k2⟩
  · simpa [loadSpins, Option.toList] using h1
  · have := h2 Feed.stats (by decide)
    simp only [loadSpins]
    rw [this, h.2.1, k2]
  · simpa [loadSpins] using h3

theorem tidy_loadStats (s : Dashboard) (h : s.Tidy) :
    (loadStats s).Tidy ∧ (loadStats s).unsubscribeStats.isSome = true
      ∧ (loadStats s).unsubscribeSpins = s.unsubscribeSpins := by
  obtain ⟨h1, h2, h3⟩ :=
    reattach Feed.stats s.unsubscribeStats s h.2.1 (tidy_at_most_one s h) h.2.2
  obtain ⟨k1, _⟩ := reattach_slots Feed.stats s.unsubscribeStats s
  refine ⟨⟨?_, ?_, ?_⟩, rfl, k1⟩
  · have := h2 Feed.spins (by decide)
    simp only [loadStats]
    rw [this, h.1, k1]
  · simpa [loadStats, Option.toList] using h1
  · simpa [loadStats] using h3

/-- Each operation keeps the page tidy and leaves both module variables
set. -/
theorem tidy_run (s : Dashboard) (op : DashboardOp) (h : s.Tidy) :
    (op.run s).Tidy ∧ (op.run s).unsubscribeSpins.isSome = true
      ∧ (op.run s).unsubscribeStats.isSome = true := by
  obtain ⟨a1, a2, _⟩ := tidy_loadSpins s h
  obtain ⟨b1, b2, b3⟩ := tidy_loadStats (loadSpins s) a1
  cases op <;> exact ⟨b1, by rw [← a2]; exact congrArg Option.isSome b3, b2⟩

theorem tidy_initial : Dashboard.initial.Tidy := by
  simp [Dashboard.Tidy, Dashboard.initial, listenersOf, Option.toList]

theorem tidy_runOps (ops : List DashboardOp) :
    ∀ s : Dashboard, s.Tidy → (runOps s ops).Tidy := by
  induction ops with
  | nil => intro s h; exact h
  | cons op ops ih => intro s h; exact ih (op.run s) (tidy_run s op h).1

/-- C9: after any sequence of dashboard operations followed by one more
(`initDashboard` or a refresh click, in any number and order, from the page
as loaded), each of the two feeds has exactly one listener attached, the one
its module variable holds; and at no moment along the way, after any attach
or detach, did a feed have two. -/
theorem dashboard_single_listener (ops : List DashboardOp) (op : DashboardOp) :
    (∀ feed, (listenersOf feed (runOps Dashboard.initial (ops ++ [op])).listeners).length = 1)
      ∧ listenersOf Feed.spins (runOps Dashboard.initial (ops ++ [op])).listeners
        = (runOps Dashboard.initial (ops ++ [op])).unsubscribeSpins.toList
      ∧ listenersOf Feed.stats (runOps Dashboard.initial (ops ++ [op])).listeners
        = (runOps Dashboard.initial (ops ++ [op])).unsubscribeStats.toList
      ∧ ∀ snap ∈ (runOps Dashboard.initial (ops ++ [op])).history,
          ∀ feed, (listenersOf feed snap).length ≤ 1 := by
  have hrun : runOps Dashboard.initial (ops ++ [op])
      = op.run (runOps Dashboard.initial ops) := by
    simp [runOps, List.foldl_append]
  rw [hrun]
  obtain ⟨ht, hs, hp⟩ := tidy_run _ op (tidy_runOps ops _ tidy_initial)
  refine ⟨?_, ht.1, ht.2.1, ht.2.2⟩
  intro feed
  cases feed with
  | spins =>
    rw [ht.1]
    cases hv : (op.run (runOps Dashboard.initial ops)).unsubscribeSpins with
    | none => rw [hv] at hs; cases hs
    | some l => simp [Option.toList]
  | stats =>
    rw [ht.2.1]
    cases hv : (op.run (runOps Dashboard.initial ops)).unsubscribeStats with
    | none => rw [hv] at hp; cases hp
    | some l => simp [Option.toList]

/-- Two refresh clicks right after `initDashboard`: one listener per feed,
the spins listener attached last but one and the stats listener attached
last. -/
theorem dashboard_double_refresh :
    (runOps Dashboard.initial
        [DashboardOp.init, DashboardOp.refresh, DashboardOp.refresh]).listeners
      = [{ feed := Feed.spins, id := 4 }, { feed := Feed.stats, id := 5 }] := by
  decide

end SpinWheel
